import Mathlib

/-!
Verification of the phase-space analysis utilities of the BLonD tracker
module (trackers/utilities.py): phase/time normalization, total RF
voltage, the single-harmonic Hamiltonian, the single-harmonic separatrix,
in-separatrix classification, potential-well extrema location and bucket
cutting, and the synchrotron-frequency tracker's loss heuristic and
spectral peak estimation.

Real-valued quantities are modelled over the reals.  The potential-well
functions, whose source is pure arithmetic and comparisons, are modelled
over the rationals so that concrete runs evaluate by kernel reduction.
-/

open Real

/-- Embedding of phase_modulo_above_transition:
returns phi - 2*pi*floor(phi/(2*pi)). -/
noncomputable def phase_modulo_above_transition (phi : ℝ) : ℝ :=
  phi - 2 * π * (⌊phi / (2 * π)⌋ : ℤ)

/-- Embedding of phase_modulo_below_transition:
returns phi - 2*pi*floor(phi/(2*pi) + 0.5). -/
noncomputable def phase_modulo_below_transition (phi : ℝ) : ℝ :=
  phi - 2 * π * (⌊phi / (2 * π) + 1 / 2⌋ : ℤ)

/-- Embedding of time_modulo: returns dt - T*floor((dt + dt_offset)/T). -/
noncomputable def time_modulo (dt dt_offset T : ℝ) : ℝ :=
  dt - T * (⌊(dt + dt_offset) / T⌋ : ℤ)

/-- Per-section RF data used by total_voltage: voltage[0] and phi_RF[0]
of one RF section for the current turn. -/
structure RFSectionTV where
  voltage0 : ℝ
  phiRF0 : ℝ

/-- Embedding of total_voltage.  The first component is the returned value
(none models the source returning no value: the unrecognized-mode branch
falls through and Python returns None, and the empty-list first-harmonic
branch raises IndexError).  The second component records whether
warnings.warn was called.  The foldl mirrors the source's running sums
Vcos, Vsin initialized from section 0. -/
noncomputable def total_voltage (RFsection_list : List RFSectionTV) (harmonic : String) :
    Option ℝ × Bool :=
  if harmonic = "first" then
    match RFsection_list with
    | [] => (none, false)
    | s0 :: rest =>
      let Vcos := rest.foldl (fun acc s => acc + s.voltage0 * Real.cos s.phiRF0)
        (s0.voltage0 * Real.cos s0.phiRF0)
      let Vsin := rest.foldl (fun acc s => acc + s.voltage0 * Real.sin s.phiRF0)
        (s0.voltage0 * Real.sin s0.phiRF0)
      (some (Real.sqrt (Vcos ^ 2 + Vsin ^ 2)), false)
  else if harmonic = "all" then
    (some 0, false)
  else
    (none, true)

/-- Speed of light constant (scipy.constants.c). -/
def c_light : ℝ := 299792458

/-- Per-turn scalars consumed by hamiltonian and is_in_separatrix:
counter-indexed entries of the RF-section and ring parameter arrays.
eta_track models RFSectionParameters.eta_tracking(Beam, counter, dE),
which lives outside this module; per the spec it supplies the
(possibly dE-dependent) slip factor for the turn. -/
structure HamParams where
  n_sections : ℕ
  n_rf : ℕ
  h0 : ℝ
  voltage0 : ℝ
  charge : ℝ
  eta_track : ℝ → ℝ
  ring_circumference : ℝ
  beta : ℝ
  energy : ℝ
  phi_s : ℝ
  omegaRF0 : ℝ
  phiRF0 : ℝ
  eta0 : ℝ

/-- Embedding of hamiltonian (single-RF sinusoidal closed form).  The
total_voltage argument, when present, stands for total_voltage[counter]. -/
noncomputable def hamiltonian (p : HamParams) (dt dE : ℝ) (total_voltage : Option ℝ) : ℝ :=
  let V0 := (match total_voltage with
    | none => p.voltage0
    | some v => v) * p.charge
  let c1 := p.eta_track dE * c_light * π / (p.ring_circumference * p.beta * p.energy)
  let c2 := c_light * p.beta * V0 / (p.h0 * p.ring_circumference)
  let phi_b0 := p.omegaRF0 * dt + p.phiRF0
  let phi_b := if p.eta0 < 0 then phase_modulo_below_transition phi_b0
    else if 0 < p.eta0 then phase_modulo_above_transition phi_b0
    else phi_b0
  c1 * dE ^ 2 + c2 * (Real.cos phi_b - Real.cos p.phi_s + (phi_b - p.phi_s) * Real.sin p.phi_s)

/-- Embedding of is_in_separatrix.  Note that the source passes
total_voltage = None to both of its internal hamiltonian calls, so the
total_voltage argument received by is_in_separatrix is never used. -/
def is_in_separatrix (p : HamParams) (dt dE : ℝ) (total_voltage : Option ℝ) : Prop :=
  |hamiltonian p dt dE none| <
    |hamiltonian p ((π - p.phi_s - p.phiRF0) / p.omegaRF0) 0 none|

/-- Per-turn scalars consumed by the single-harmonic branch of separatrix:
counter-indexed entries of the RF parameter arrays for harmonic 0. -/
structure SepParams where
  charge : ℝ
  voltage0 : ℝ
  omegaRF0 : ℝ
  phiRF0 : ℝ
  eta0 : ℝ
  beta : ℝ
  energy : ℝ
  h0 : ℝ
  phi_s : ℝ

/-- The time-coordinate folding applied by separatrix before evaluating
the bunch phase. -/
noncomputable def separatrix_dt_fold (p : SepParams) (dt : ℝ) : ℝ :=
  if p.eta0 < 0 then time_modulo dt ((p.phiRF0 - π) / p.omegaRF0) (2 * π / p.omegaRF0)
  else if 0 < p.eta0 then time_modulo dt (p.phiRF0 / p.omegaRF0) (2 * π / p.omegaRF0)
  else dt

/-- The bunch phase phi_b = omega_RF[0]*dt + phi_RF[0] used by separatrix,
after the time folding. -/
noncomputable def separatrix_phase (p : SepParams) (dt : ℝ) : ℝ :=
  p.omegaRF0 * separatrix_dt_fold p dt + p.phiRF0

/-- The effective voltage used by separatrix: the charge-weighted RF
voltage when no total voltage is supplied, otherwise total_voltage[counter]. -/
noncomputable def separatrix_V0 (p : SepParams) : Option ℝ → ℝ
  | none => p.charge * p.voltage0
  | some v => v

/-- Embedding of the single-harmonic branch (n_rf = 1) of separatrix.
Real.sqrt returns 0 on negative arguments where numpy returns NaN; the
claims below only evaluate it where the radicand is nonnegative. -/
noncomputable def separatrix (p : SepParams) (dt : ℝ) (total_voltage : Option ℝ) : ℝ :=
  Real.sqrt (p.beta ^ 2 * p.energy * separatrix_V0 p total_voltage / (π * p.eta0 * p.h0) *
    (-Real.cos (separatrix_phase p dt) - Real.cos p.phi_s +
      (π - p.phi_s - separatrix_phase p dt) * Real.sin p.phi_s))

/-- Concrete single-harmonic parameters with synchronous phase pi
(stationary bucket above transition). -/
noncomputable def pC3 : SepParams :=
  ⟨1, 1, 1, 0, 1, 1, 1, 1, π⟩

/-- Concrete single-harmonic parameters with synchronous phase 0. -/
noncomputable def pW3 : SepParams :=
  ⟨1, 1, 1, 0, 1, 1, 1, 1, 0⟩

/-- Concrete Hamiltonian parameters: unit RF system with zero slip factor
and ring circumference equal to c_light so that c2 = V0. -/
noncomputable def pC4 : HamParams :=
  ⟨1, 1, 1, 1, 1, fun _ => 1, c_light, 1, 1, 0, 1, 0, 0⟩

/-- A concrete RF section: unit voltage, zero phase. -/
def stW : RFSectionTV := ⟨1, 0⟩

/-- The implemented combination mode name. -/
def modeFirst : String := "first"

/-- The stubbed all-harmonics combination mode name. -/
def modeAll : String := "all"

/-- An unrecognized combination mode name. -/
def modeBad : String := "everything"

/-- Embedding of np.diff: successive differences f[i+1] - f[i]. -/
def npdiff (f : List ℚ) : List ℚ :=
  (f.zip f.tail).map fun pr => pr.2 - pr.1

/-- Embedding of np.interp(t, xp, fp) for increasing xp: clamped
piecewise-linear interpolation at a single query point t. -/
def npinterp (t : ℚ) : List ℚ → List ℚ → ℚ
  | [], _ => 0
  | [_], [] => 0
  | [_], f1 :: _ => f1
  | _ :: _ :: _, [] => 0
  | _ :: _ :: _, [_] => 0
  | x1 :: x2 :: xs, f1 :: f2 :: fs =>
    if t ≤ x1 then f1
    else if t ≤ x2 then f1 + (f2 - f1) * (t - x1) / (x2 - x1)
    else npinterp t (x2 :: xs) (f2 :: fs)

/-- The midpoint grid x[0:-1] + (x[1]-x[0])/2 on which the derivative
samples live (the source assumes a uniform grid). -/
def deriv_grid (x : List ℚ) : List ℚ :=
  x.dropLast.map fun xi => xi + (x.getD 1 0 - x.getD 0 0) / 2

/-- f_derivative of minmax_location: np.diff(f) resampled onto x. -/
def first_deriv (x f : List ℚ) : List ℚ :=
  x.map fun xi => npinterp xi (deriv_grid x) (npdiff f)

/-- f_derivative_second of minmax_location: np.diff of the resampled
derivative, itself resampled onto x. -/
def second_deriv (x f : List ℚ) : List ℚ :=
  x.map fun xi => npinterp xi (deriv_grid x) (npdiff (first_deriv x f))

/-- The sorted index set f_derivative_zeros of minmax_location: indices
where the resampled derivative is exactly zero or changes sign between
consecutive samples.  (With floats a zero denominator makes the ratio
infinite or undefined, and the ratio test then holds only when the
numerator is negative, an index the equality test already contains; with
rational division-by-zero equal to 0 the ratio test likewise adds nothing
at such an index, so the index sets agree.) -/
def deriv_zero_indices (x f : List ℚ) : List ℕ :=
  (List.range x.length).filter fun i =>
    (first_deriv x f).getD i 0 = 0 ∨
      (i + 1 < x.length ∧
        (first_deriv x f).getD (i + 1) 0 / (first_deriv x f).getD i 0 < 0)

/-- min_x_position of minmax_location: midpoints (x[i+1] + x[i])/2 at
derivative zeros with positive second derivative. -/
def min_positions (x f : List ℚ) : List ℚ :=
  ((deriv_zero_indices x f).filter fun i => 0 < (second_deriv x f).getD i 0).map
    fun i => (x.getD (i + 1) 0 + x.getD i 0) / 2

/-- max_x_position of minmax_location: midpoints (x[i+1] + x[i])/2 at
derivative zeros with negative second derivative. -/
def max_positions (x f : List ℚ) : List ℚ :=
  ((deriv_zero_indices x f).filter fun i => (second_deriv x f).getD i 0 < 0).map
    fun i => (x.getD (i + 1) 0 + x.getD i 0) / 2

/-- min_values of minmax_location: the potential interpolated at the
minima positions. -/
def min_values (x f : List ℚ) : List ℚ :=
  (min_positions x f).map fun t => npinterp t x f

/-- max_values of minmax_location: the potential interpolated at the
maxima positions. -/
def max_values (x f : List ℚ) : List ℚ :=
  (max_positions x f).map fun t => npinterp t x f

/-- Embedding of minmax_location: ((min positions, max positions),
(min values, max values)). -/
def minmax_location (x f : List ℚ) : (List ℚ × List ℚ) × (List ℚ × List ℚ) :=
  ((min_positions x f, max_positions x f), (min_values x f, max_values x f))

/-- Inputs on which the source minmax_location completes without an
IndexError: at least two samples, matching lengths, and no derivative zero
at the last index (whose midpoint would read x[len(x)]). -/
def minmax_wf (x f : List ℚ) : Prop :=
  2 ≤ x.length ∧ f.length = x.length ∧
    ∀ i ∈ deriv_zero_indices x f, i + 1 < x.length

instance minmax_wf_decidable (x f : List ℚ) : Decidable (minmax_wf x f) := by
  unfold minmax_wf
  infer_instance

/-- Embedding of potential_well_cut.  The first component records whether
the zero-maxima fallback warning was printed; the second is the returned
(time, potential) pair or the runtime error raised.  In the zero-maxima
branch the source prints its warning but never assigns time_potential_sep,
so the final return statement raises UnboundLocalError instead of
returning the full range. -/
def potential_well_cut (time_potential potential_array : List ℚ) :
    Bool × Except String (List ℚ × List ℚ) :=
  let min_time_positions := min_positions time_potential potential_array
  let max_time_positions := max_positions time_potential potential_array
  let max_potential_values := max_values time_potential potential_array
  let n_minima := min_time_positions.length
  let n_maxima := max_time_positions.length
  if n_minima = 0 then
    (false, Except.error "The potential well has no minima...")
  else if n_minima > n_maxima ∧ n_maxima = 1 then
    (false, Except.error "The potential well has more minima than maxima, and only one maximum")
  else if n_maxima = 0 then
    (true, Except.error "UnboundLocalError: time_potential_sep referenced before assignment")
  else if n_maxima = 1 then
    let maxT := max_time_positions.getD 0 0
    let maxV := max_potential_values.getD 0 0
    if min_time_positions.getD 0 0 > maxT then
      let kept := (time_potential.zip potential_array).filter fun pr =>
        pr.2 < maxV ∧ pr.1 > maxT
      if potential_array.getLastD 0 < potential_array.headD 0 then
        (false, Except.error "The potential well is not well defined.")
      else
        (false, Except.ok (kept.map Prod.fst, kept.map Prod.snd))
    else
      let kept := (time_potential.zip potential_array).filter fun pr =>
        pr.2 < maxV ∧ pr.1 < maxT
      if potential_array.getLastD 0 > potential_array.headD 0 then
        (false, Except.error "The potential well is not well defined.")
      else
        (false, Except.ok (kept.map Prod.fst, kept.map Prod.snd))
  else if n_maxima = 2 then
    let t1 := max_time_positions.getD 0 0
    let t2 := max_time_positions.getD 1 0
    let v1 := max_potential_values.getD 0 0
    let v2 := max_potential_values.getD 1 0
    let lowerV := min v1 v2
    if v1 = v2 then
      let kept := (time_potential.zip potential_array).filter fun pr =>
        pr.2 < lowerV ∧ pr.1 > t1 ∧ pr.1 < t2
      (false, Except.ok (kept.map Prod.fst, kept.map Prod.snd))
    else
      let lowerT := if v1 < v2 then t1 else t2
      let higherT := if v1 < v2 then t2 else t1
      if min_time_positions.getD 0 0 > lowerT then
        let kept := (time_potential.zip potential_array).filter fun pr =>
          pr.2 < lowerV ∧ pr.1 > lowerT ∧ pr.1 < higherT
        (false, Except.ok (kept.map Prod.fst, kept.map Prod.snd))
      else
        let kept := (time_potential.zip potential_array).filter fun pr =>
          pr.2 < lowerV ∧ pr.1 < lowerT ∧ pr.1 > higherT
        (false, Except.ok (kept.map Prod.fst, kept.map Prod.snd))
  else
    let leftT := max_time_positions.foldr min (max_time_positions.headD 0)
    let rightT := max_time_positions.foldr max (max_time_positions.headD 0)
    let edgeVals := ((max_time_positions.zip max_potential_values).filter fun pr =>
      pr.1 = leftT ∨ pr.1 = rightT).map Prod.snd
    let sepV := edgeVals.foldr min (edgeVals.headD 0)
    let kept := (time_potential.zip potential_array).filter fun pr =>
      pr.1 > leftT ∧ pr.1 < rightT ∧ pr.2 < sepV
    (false, Except.ok (kept.map Prod.fst, kept.map Prod.snd))

/-- A single-well potential (one minimum, no maxima). -/
def X1 : List ℚ := [0, 1, 2]

/-- Potential values of the single-well input. -/
def F1 : List ℚ := [2, 0, 2]

/-- Time grid for the one-maximum consistent-boundary input. -/
def X5 : List ℚ := [0, 1, 2, 3, 4]

/-- A potential with one maximum and one minimum to its right, with a
consistent outer boundary (f[-1] is not below f[0]). -/
def F5 : List ℚ := [-1, 2, 0, -1, 0]

/-- Time grid for the one-maximum inconsistent-boundary input. -/
def X6 : List ℚ := [0, 1, 2, 3, 4]

/-- A potential with one minimum left of one maximum but with f[-1] above
f[0], tripping the boundary-consistency error of the one-maximum branch. -/
def F6 : List ℚ := [0, -1, 0, 2, 1]

/-- State of the synchrotron_frequency_tracker consumed by
frequency_calculation: ensemble size, turn count, revolution period, and
the saved turn-by-turn theta and dE coordinates (turn index first,
particle index second). -/
structure SyncFreqTracker where
  n_macroparticles : ℕ
  nTurns : ℕ
  timeStep : ℝ
  theta_save : ℕ → ℕ → ℝ
  dE_save : ℕ → ℕ → ℝ

/-- The turn indices selected by the slice [start_turn:end_turn] of the
nTurns-row coordinate arrays. -/
def turn_window (t : SyncFreqTracker) (s e : ℕ) : List ℕ :=
  (List.range t.nTurns).filter fun k => s ≤ k ∧ k < e

/-- theta_save[start_turn:end_turn, i]: one particle's theta history over
the analysis window. -/
def theta_series (t : SyncFreqTracker) (s e i : ℕ) : List ℝ :=
  (turn_window t s e).map fun k => t.theta_save k i

/-- dE_save[start_turn:end_turn, i]: one particle's dE history over the
analysis window. -/
def dE_series (t : SyncFreqTracker) (s e i : ℕ) : List ℝ :=
  (turn_window t s e).map fun k => t.dE_save k i

/-- max_theta_range: np.max(theta_save[0, :]), the largest initial theta
(np.max of an empty ensemble raises; the model defaults to 0). -/
noncomputable def max_theta_range (t : SyncFreqTracker) : ℝ :=
  (((List.range t.n_macroparticles).map fun p => t.theta_save 0 p).max?).getD 0

/-- min_theta_range: np.min(theta_save[0, :]). -/
noncomputable def min_theta_range (t : SyncFreqTracker) : ℝ :=
  (((List.range t.n_macroparticles).map fun p => t.theta_save 0 p).min?).getD 0

/-- max_theta_save[i]: the particle's largest theta over the window. -/
noncomputable def particle_max (t : SyncFreqTracker) (s e i : ℕ) : ℝ :=
  ((theta_series t s e i).max?).getD 0

/-- min_theta_save[i]: the particle's smallest theta over the window. -/
noncomputable def particle_min (t : SyncFreqTracker) (s e i : ℕ) : ℝ :=
  ((theta_series t s e i).min?).getD 0

/-- The source's keep condition: the particle's theta excursion stays
strictly inside the initial ensemble's extreme range. -/
def particle_survives (t : SyncFreqTracker) (s e i : ℕ) : Prop :=
  particle_max t s e i < max_theta_range t ∧ min_theta_range t < particle_min t s e i

/-- np.mean (sum over length; the model returns 0 on an empty series
where numpy returns nan). -/
noncomputable def series_mean (y : List ℝ) : ℝ := y.sum / y.length

/-- Magnitude of the k-th bin of np.fft.rfft(y, n): the absolute value of
the sum over j of y[j] * exp(-2*pi*I*j*k/n) (rfft zero-pads y to length
n, or truncates it when y is longer). -/
noncomputable def rfft_mag (y : List ℝ) (n k : ℕ) : ℝ :=
  Complex.abs (Finset.sum (Finset.range (min y.length n)) fun j =>
    (y.getD j 0 : ℂ) * Complex.exp (-2 * (π : ℂ) * Complex.I * j * k / n))

open Classical in
/-- The peak-magnitude spectral frequency estimate of
frequency_calculation: mean-subtract the series, take the rfft magnitudes
over the n/2 + 1 real-spectrum bins, and report the frequency k/(n*d) of
the bin attaining the maximum magnitude.  (On ties the source's scalar
assignment from a boolean mask raises ValueError; the model takes the
lowest such bin.) -/
noncomputable def peak_freq (y : List ℝ) (n : ℕ) (d : ℝ) : ℝ :=
  let ym := y.map fun v => v - series_mean y
  let mags := (List.range (n / 2 + 1)).map fun k => rfft_mag ym n k
  let peak := ((List.range (n / 2 + 1)).filter fun k =>
    mags.getD k 0 = (mags.max?).getD 0).headD 0
  (peak : ℝ) / (n * d)

open Classical in
/-- frequency_theta_save[i] as computed by frequency_calculation: left at
zero for lost particles, otherwise the peak-magnitude estimate from the
theta series. -/
noncomputable def frequency_theta (t : SyncFreqTracker) (ns s e i : ℕ) : ℝ :=
  if particle_survives t s e i then peak_freq (theta_series t s e i) ns t.timeStep
  else 0

open Classical in
/-- frequency_dE_save[i]: left at zero for lost particles (the same
theta-based test), otherwise the peak-magnitude estimate from the dE
series. -/
noncomputable def frequency_dE (t : SyncFreqTracker) (ns s e i : ℕ) : ℝ :=
  if particle_survives t s e i then peak_freq (dE_series t s e i) ns t.timeStep
  else 0

/-- A concrete two-particle, two-turn tracker: particle p sits at
theta = p on every turn, dE identically zero. -/
noncomputable def T7 : SyncFreqTracker :=
  ⟨2, 2, 1, fun _ p => (p : ℝ), fun _ _ => 0⟩

lemma pma_eq_fract (phi : ℝ) :
    phase_modulo_above_transition phi = 2 * π * Int.fract (phi / (2 * π)) := by
  have h2 : (2 * π) ≠ 0 := by positivity
  unfold phase_modulo_above_transition
  rw [Int.fract]
  field_simp

lemma pmb_eq_fract (phi : ℝ) :
    phase_modulo_below_transition phi
      = 2 * π * (Int.fract (phi / (2 * π) + 1 / 2) - 1 / 2) := by
  have h2 : (2 * π) ≠ 0 := by positivity
  unfold phase_modulo_below_transition
  rw [Int.fract]
  field_simp
  ring

lemma pma_mem (phi : ℝ) :
    0 ≤ phase_modulo_above_transition phi ∧ phase_modulo_above_transition phi < 2 * π := by
  rw [pma_eq_fract]
  constructor
  · exact mul_nonneg (by positivity) (Int.fract_nonneg _)
  · have h := Int.fract_lt_one (phi / (2 * π))
    nlinarith [Real.two_pi_pos]

lemma pmb_mem (phi : ℝ) :
    -π ≤ phase_modulo_below_transition phi ∧ phase_modulo_below_transition phi < π := by
  rw [pmb_eq_fract]
  have h0 := Int.fract_nonneg (phi / (2 * π) + 1 / 2)
  have h1 := Int.fract_lt_one (phi / (2 * π) + 1 / 2)
  constructor
  · nlinarith [Real.pi_pos]
  · nlinarith [Real.pi_pos]

lemma pma_fixed {x : ℝ} (h0 : 0 ≤ x) (h1 : x < 2 * π) :
    phase_modulo_above_transition x = x := by
  unfold phase_modulo_above_transition
  have hfl : ⌊x / (2 * π)⌋ = 0 := by
    rw [Int.floor_eq_zero_iff]
    refine Set.mem_Ico.mpr ⟨div_nonneg h0 (le_of_lt Real.two_pi_pos), ?_⟩
    exact (div_lt_one Real.two_pi_pos).mpr h1
  rw [hfl]
  simp

lemma pmb_fixed {x : ℝ} (h0 : -π ≤ x) (h1 : x < π) :
    phase_modulo_below_transition x = x := by
  unfold phase_modulo_below_transition
  have hfl : ⌊x / (2 * π) + 1 / 2⌋ = 0 := by
    rw [Int.floor_eq_zero_iff]
    refine Set.mem_Ico.mpr ⟨?_, ?_⟩
    · have : -(1 / 2 : ℝ) ≤ x / (2 * π) := by
        rw [neg_le, ← neg_div, div_le_iff₀ Real.two_pi_pos]
        nlinarith
      linarith
    · have : x / (2 * π) < 1 / 2 := by
        rw [div_lt_iff₀ Real.two_pi_pos]
        nlinarith
      linarith
  rw [hfl]
  simp

lemma pma_idem (phi : ℝ) :
    phase_modulo_above_transition (phase_modulo_above_transition phi)
      = phase_modulo_above_transition phi :=
  pma_fixed (pma_mem phi).1 (pma_mem phi).2

lemma pmb_idem (phi : ℝ) :
    phase_modulo_below_transition (phase_modulo_below_transition phi)
      = phase_modulo_below_transition phi :=
  pmb_fixed (pmb_mem phi).1 (pmb_mem phi).2

/-- Claim C8: phase_modulo_above_transition and phase_modulo_below_transition
are both idempotent, and phase_modulo_above_transition phi is congruent to
phi modulo 2*pi (they differ by 2*pi times an integer). -/
theorem C8_phase_modulo_idempotent_and_congruent (phi : ℝ) :
    phase_modulo_above_transition (phase_modulo_above_transition phi)
        = phase_modulo_above_transition phi ∧
    phase_modulo_below_transition (phase_modulo_below_transition phi)
        = phase_modulo_below_transition phi ∧
    ∃ k : ℤ, phase_modulo_above_transition phi = phi - 2 * π * k :=
  ⟨pma_idem phi, pmb_idem phi, ⟨⌊phi / (2 * π)⌋, rfl⟩⟩

/-- Claim C10: phase_modulo_above_transition lands in [0, 2*pi),
phase_modulo_below_transition lands in [-pi, pi), the two variants applied
to the same phase differ by exactly 0 or exactly 2*pi, and each variant has
outputs outside the docstring's claimed range -pi/2 .. 3*pi/2. -/
theorem C10_phase_modulo_ranges (phi : ℝ) :
    (0 ≤ phase_modulo_above_transition phi ∧ phase_modulo_above_transition phi < 2 * π) ∧
    (-π ≤ phase_modulo_below_transition phi ∧ phase_modulo_below_transition phi < π) ∧
    (phase_modulo_above_transition phi - phase_modulo_below_transition phi = 0 ∨
     phase_modulo_above_transition phi - phase_modulo_below_transition phi = 2 * π) ∧
    (∃ a, 3 * π / 2 < phase_modulo_above_transition a) ∧
    (∃ b, phase_modulo_below_transition b < -(π / 2)) := by
  refine ⟨pma_mem phi, pmb_mem phi, ?_, ?_, ?_⟩
  · have hle : ⌊phi / (2 * π)⌋ ≤ ⌊phi / (2 * π) + 1 / 2⌋ :=
      Int.floor_le_floor (by linarith)
    have hge : ⌊phi / (2 * π) + 1 / 2⌋ ≤ ⌊phi / (2 * π)⌋ + 1 := by
      have h1 : ⌊phi / (2 * π) + 1 / 2⌋ ≤ ⌊phi / (2 * π) + 1⌋ :=
        Int.floor_le_floor (by linarith)
      rw [Int.floor_add_one] at h1
      exact h1
    have hdiff : phase_modulo_above_transition phi - phase_modulo_below_transition phi
        = 2 * π * ((⌊phi / (2 * π) + 1 / 2⌋ : ℤ) - (⌊phi / (2 * π)⌋ : ℤ) : ℝ) := by
      unfold phase_modulo_above_transition phase_modulo_below_transition
      ring
    rcases (show ⌊phi / (2 * π) + 1 / 2⌋ - ⌊phi / (2 * π)⌋ = 0 ∨
        ⌊phi / (2 * π) + 1 / 2⌋ - ⌊phi / (2 * π)⌋ = 1 by omega) with h | h
    · left
      rw [hdiff]
      rw [show ((⌊phi / (2 * π) + 1 / 2⌋ : ℝ) - (⌊phi / (2 * π)⌋ : ℝ))
          = ((⌊phi / (2 * π) + 1 / 2⌋ - ⌊phi / (2 * π)⌋ : ℤ) : ℝ) by push_cast; ring, h]
      simp
    · right
      rw [hdiff]
      rw [show ((⌊phi / (2 * π) + 1 / 2⌋ : ℝ) - (⌊phi / (2 * π)⌋ : ℝ))
          = ((⌊phi / (2 * π) + 1 / 2⌋ - ⌊phi / (2 * π)⌋ : ℤ) : ℝ) by push_cast; ring, h]
      simp
  · refine ⟨7 * π / 4, ?_⟩
    have h : phase_modulo_above_transition (7 * π / 4) = 7 * π / 4 :=
      pma_fixed (by positivity) (by nlinarith [Real.pi_pos])
    rw [h]
    nlinarith [Real.pi_pos]
  · refine ⟨-(3 * π / 4), ?_⟩
    have h : phase_modulo_below_transition (-(3 * π / 4)) = -(3 * π / 4) :=
      pmb_fixed (by nlinarith [Real.pi_pos]) (by nlinarith [Real.pi_pos])
    rw [h]
    nlinarith [Real.pi_pos]

/-- Claim C9: for T > 0, time_modulo folds dt into the half-open interval
[-dt_offset, -dt_offset + T), i.e. 0 <= time_modulo dt dt_offset T + dt_offset < T,
and a sample exactly at the upper bound maps to the lower bound. -/
theorem C9_time_modulo_bounds (dt dt_offset T : ℝ) (hT : 0 < T) :
    (0 ≤ time_modulo dt dt_offset T + dt_offset ∧
     time_modulo dt dt_offset T + dt_offset < T) ∧
    (dt + dt_offset = T → time_modulo dt dt_offset T = -dt_offset) := by
  have hT0 : T ≠ 0 := ne_of_gt hT
  have hkey : time_modulo dt dt_offset T + dt_offset
      = T * Int.fract ((dt + dt_offset) / T) := by
    unfold time_modulo
    rw [Int.fract]
    field_simp
    ring
  constructor
  · constructor
    · rw [hkey]
      exact mul_nonneg (le_of_lt hT) (Int.fract_nonneg _)
    · rw [hkey]
      have h := Int.fract_lt_one ((dt + dt_offset) / T)
      nlinarith
  · intro hedge
    have h1 : (dt + dt_offset) / T = 1 := by
      rw [hedge]
      field_simp
    unfold time_modulo
    rw [h1]
    have : ⌊(1 : ℝ)⌋ = 1 := Int.floor_one
    rw [this]
    push_cast
    linarith

/-- Witness for C9 at dt = 1, dt_offset = 0, T = 2. -/
theorem C9_witness :
    (0 : ℝ) < 2 ∧
    ((0 ≤ time_modulo 1 0 2 + 0 ∧ time_modulo 1 0 2 + 0 < 2) ∧
     ((1 : ℝ) + 0 = 2 → time_modulo 1 0 2 = -0)) :=
  ⟨by norm_num, C9_time_modulo_bounds 1 0 2 (by norm_num)⟩

lemma foldl_add_eq_sum (g : RFSectionTV → ℝ) (l : List RFSectionTV) (a : ℝ) :
    l.foldl (fun acc s => acc + g s) a = a + (l.map g).sum := by
  induction l generalizing a with
  | nil => simp
  | cons x xs ih =>
    simp only [List.foldl_cons, List.map_cons, List.sum_cons, ih]
    ring

/-- Claim C2 (amended): with a nonempty section list, mode "first" returns
the quadrature combination sqrt(Vcos^2 + Vsin^2) of the summed per-section
first-harmonic cosine and sine components; mode "all" returns the sentinel
0 WITHOUT emitting any diagnostic; every other mode name emits a warning
diagnostic and returns no value (it does not raise an invalid-argument
error). -/
theorem C2_total_voltage_modes (s0 : RFSectionTV) (rest : List RFSectionTV) (m : String) :
    (m = "first" → total_voltage (s0 :: rest) m =
      (some (Real.sqrt
        ((((s0 :: rest).map fun s => s.voltage0 * Real.cos s.phiRF0).sum) ^ 2 +
         (((s0 :: rest).map fun s => s.voltage0 * Real.sin s.phiRF0).sum) ^ 2)), false)) ∧
    (m = "all" → total_voltage (s0 :: rest) m = (some 0, false)) ∧
    (m ≠ "first" → m ≠ "all" → total_voltage (s0 :: rest) m = (none, true)) := by
  refine ⟨?_, ?_, ?_⟩
  · intro h
    subst h
    unfold total_voltage
    rw [if_pos rfl]
    simp only [foldl_add_eq_sum, List.map_cons, List.sum_cons]
  · intro h
    subst h
    unfold total_voltage
    rw [if_neg (by decide), if_pos rfl]
  · intro h1 h2
    unfold total_voltage
    rw [if_neg h1, if_neg h2]

/-- Witness for C2: the amended statement instantiated at one section and
mode "first". -/
theorem C2_witness :
    (modeFirst = "first" → total_voltage (stW :: []) modeFirst =
      (some (Real.sqrt
        ((((stW :: []).map fun s => s.voltage0 * Real.cos s.phiRF0).sum) ^ 2 +
         (((stW :: []).map fun s => s.voltage0 * Real.sin s.phiRF0).sum) ^ 2)), false)) ∧
    (modeFirst = "all" → total_voltage (stW :: []) modeFirst = (some 0, false)) ∧
    (modeFirst ≠ "first" → modeFirst ≠ "all" →
      total_voltage (stW :: []) modeFirst = (none, true)) :=
  C2_total_voltage_modes stW [] modeFirst

/-- Counterexample for C2 as stated: the "all" mode returns the sentinel 0
with NO diagnostic emitted (second component false), and an unrecognized
mode emits a warning and returns None rather than raising an
invalid-argument error (the call completes with value (none, true)). -/
theorem C2_counterexample :
    total_voltage (stW :: []) modeAll = (some 0, false) ∧
    total_voltage (stW :: []) modeBad = (none, true) := by
  constructor
  · unfold total_voltage
    rw [if_neg (by decide), if_pos (show modeAll = "all" by rfl)]
  · unfold total_voltage
    rw [if_neg (by decide), if_neg (by decide)]

lemma floor_one_half : ⌊(1 : ℝ) / 2⌋ = 0 := by
  rw [Int.floor_eq_zero_iff]
  refine Set.mem_Ico.mpr ⟨by norm_num, by norm_num⟩

lemma time_modulo_pi_eq : time_modulo π 0 (2 * π) = π := by
  unfold time_modulo
  have h : (π + 0) / (2 * π) = 1 / 2 := by
    rw [add_zero, div_eq_div_iff (by positivity) (by norm_num : (2 : ℝ) ≠ 0)]
    ring
  rw [h, floor_one_half]
  push_cast
  ring

lemma sep_phase_unit (p : SepParams) (h1 : p.omegaRF0 = 1) (h2 : p.phiRF0 = 0)
    (h3 : p.eta0 = 1) : separatrix_phase p π = π := by
  unfold separatrix_phase separatrix_dt_fold
  rw [h1, h2, h3]
  norm_num
  exact time_modulo_pi_eq

/-- Claim C3 (amended): the single-harmonic separatrix vanishes at any time
offset whose (folded) bunch phase equals the unstable fixed point
pi - phi_s.  At the synchronous phase itself it returns the bucket
half-height, which is nonzero in general (see the counterexample). -/
theorem C3_separatrix_zero_at_unstable_point (p : SepParams) (dt : ℝ)
    (h : separatrix_phase p dt = π - p.phi_s) :
    separatrix p dt none = 0 := by
  have harg : p.beta ^ 2 * p.energy * separatrix_V0 p none / (π * p.eta0 * p.h0) *
      (-Real.cos (π - p.phi_s) - Real.cos p.phi_s +
        (π - p.phi_s - (π - p.phi_s)) * Real.sin p.phi_s) = 0 := by
    rw [Real.cos_pi_sub]
    ring
  unfold separatrix
  rw [h, harg, Real.sqrt_zero]

/-- Counterexample for C3 as stated: for a stationary bucket above
transition (phi_s = pi), the time offset dt = pi has bunch phase exactly
phi_s, yet the separatrix there is sqrt(2/pi), not 0: the separatrix
vanishes only at the unstable fixed point, while at the synchronous phase
it attains the bucket half-height. -/
theorem C3_counterexample :
    separatrix_phase pC3 π = pC3.phi_s ∧ separatrix pC3 π none ≠ 0 := by
  have hph : separatrix_phase pC3 π = π := sep_phase_unit pC3 rfl rfl rfl
  constructor
  · rw [hph]
    exact rfl
  · unfold separatrix
    rw [hph]
    have h2 : (0 : ℝ) < pC3.beta ^ 2 * pC3.energy * separatrix_V0 pC3 none /
        (π * pC3.eta0 * pC3.h0) *
        (-Real.cos π - Real.cos pC3.phi_s + (π - pC3.phi_s - π) * Real.sin pC3.phi_s) := by
      show (0 : ℝ) < 1 ^ 2 * 1 * (1 * 1) / (π * 1 * 1) *
        (-Real.cos π - Real.cos π + (π - π - π) * Real.sin π)
      rw [Real.cos_pi, Real.sin_pi]
      ring_nf
      positivity
    exact ne_of_gt (Real.sqrt_pos.mpr h2)

/-- Witness for C3: with phi_s = 0, the time offset dt = pi has bunch phase
pi = pi - phi_s (the unstable fixed point), and the separatrix is 0 there. -/
theorem C3_witness :
    separatrix_phase pW3 π = π - pW3.phi_s ∧ separatrix pW3 π none = 0 := by
  have h : separatrix_phase pW3 π = π - pW3.phi_s := by
    rw [sep_phase_unit pW3 rfl rfl rfl]
    norm_num [pW3]
  exact ⟨h, C3_separatrix_zero_at_unstable_point pW3 π h⟩

lemma ham_pC4_none_zero : hamiltonian pC4 0 0 none = 0 := by
  simp [hamiltonian, pC4, Real.cos_zero, Real.sin_zero]

lemma ham_pC4_none_sep :
    hamiltonian pC4 ((π - pC4.phi_s - pC4.phiRF0) / pC4.omegaRF0) 0 none = -2 := by
  have hdt : (π - pC4.phi_s - pC4.phiRF0) / pC4.omegaRF0 = π := by
    show (π - 0 - 0) / 1 = π
    norm_num
  rw [hdt]
  norm_num [hamiltonian, pC4, c_light, Real.cos_pi, Real.cos_zero, Real.sin_zero]

lemma ham_pC4_some0_zero (dt : ℝ) : hamiltonian pC4 dt 0 (some 0) = 0 := by
  simp [hamiltonian, pC4]

/-- Counterexample for C4 as stated: with total_voltage = some 0 supplied,
is_in_separatrix classifies the origin as inside (it internally compares
with total_voltage = None), while the direct |H| < |H_sep| check that
actually uses the supplied total_voltage is false (both sides degenerate
to 0 there). -/
theorem C4_counterexample :
    is_in_separatrix pC4 0 0 (some 0) ∧
    ¬ (|hamiltonian pC4 0 0 (some 0)| <
       |hamiltonian pC4 ((π - pC4.phi_s - pC4.phiRF0) / pC4.omegaRF0) 0 (some 0)|) := by
  constructor
  · show |hamiltonian pC4 0 0 none| <
      |hamiltonian pC4 ((π - pC4.phi_s - pC4.phiRF0) / pC4.omegaRF0) 0 none|
    rw [ham_pC4_none_zero, ham_pC4_none_sep]
    norm_num
  · rw [ham_pC4_some0_zero, ham_pC4_some0_zero]
    norm_num

/-- Claim C4 (amended): is_in_separatrix ignores its total_voltage
argument: for all values of that argument it returns the comparison
|H(dt,dE)| < |H(dt_sep,0)| evaluated with total_voltage = None, where
dt_sep = (pi - phi_s - phi_RF)/omega_RF.  It therefore agrees with the
same-inputs direct check only when the supplied total voltage coincides
with the per-turn RF voltage (in particular for total_voltage = None). -/
theorem C4_is_in_separatrix_uses_none (p : HamParams) (dt dE : ℝ) (tv tvx : Option ℝ) :
    (is_in_separatrix p dt dE tv ↔ is_in_separatrix p dt dE tvx) ∧
    (is_in_separatrix p dt dE tv ↔
      |hamiltonian p dt dE none| <
        |hamiltonian p ((π - p.phi_s - p.phiRF0) / p.omegaRF0) 0 none|) ∧
    (tv = some p.voltage0 →
      (is_in_separatrix p dt dE tv ↔
        |hamiltonian p dt dE tv| <
          |hamiltonian p ((π - p.phi_s - p.phiRF0) / p.omegaRF0) 0 tv|)) := by
  refine ⟨Iff.rfl, Iff.rfl, ?_⟩
  rintro rfl
  exact Iff.rfl

/-- Witness for C4: the amended statement instantiated at concrete
parameters with total_voltage = some (per-turn voltage). -/
theorem C4_witness :
    (is_in_separatrix pC4 0 0 (some pC4.voltage0) ↔ is_in_separatrix pC4 0 0 none) ∧
    (is_in_separatrix pC4 0 0 (some pC4.voltage0) ↔
      |hamiltonian pC4 0 0 none| <
        |hamiltonian pC4 ((π - pC4.phi_s - pC4.phiRF0) / pC4.omegaRF0) 0 none|) ∧
    (some pC4.voltage0 = some pC4.voltage0 →
      (is_in_separatrix pC4 0 0 (some pC4.voltage0) ↔
        |hamiltonian pC4 0 0 (some pC4.voltage0)| <
          |hamiltonian pC4 ((π - pC4.phi_s - pC4.phiRF0) / pC4.omegaRF0) 0
            (some pC4.voltage0)|)) :=
  C4_is_in_separatrix_uses_none pC4 0 0 (some pC4.voltage0) none


lemma mm_X1 : minmax_location X1 F1 = (([3 / 2], []), ([1], [])) := by
  norm_num [minmax_location, min_positions, max_positions, max_values, min_values,
    deriv_zero_indices, second_deriv, first_deriv, deriv_grid, npdiff, npinterp,
    X1, F1, List.range_succ, List.getD]

lemma pwc_X1 : potential_well_cut X1 F1 =
    (true, Except.error "UnboundLocalError: time_potential_sep referenced before assignment") := by
  norm_num [potential_well_cut, min_positions, max_positions, max_values, min_values,
    deriv_zero_indices, second_deriv, first_deriv, deriv_grid, npdiff, npinterp,
    X1, F1, List.range_succ, List.getD, List.getLastD, List.headD]

/-- Claim C1: on the single-well input (X1, F1), minmax_location detects
one minimum and zero maxima; potential_well_cut prints its fallback
diagnostic (first component true) but, because the source never assigns
time_potential_sep in the zero-maxima branch, the call then aborts with
UnboundLocalError instead of returning the full input range. -/
theorem C1_zero_maxima_branch_aborts :
    (minmax_location X1 F1).1.1.length = 1 ∧
    (minmax_location X1 F1).1.2.length = 0 ∧
    potential_well_cut X1 F1 =
      (true, Except.error "UnboundLocalError: time_potential_sep referenced before assignment") :=
  ⟨by simp [mm_X1], by simp [mm_X1], pwc_X1⟩

/-- Claim C5: when minmax_location detects exactly one minimum and one
maximum, every potential value returned by potential_well_cut is strictly
below the maximum's potential value, and every returned time lies on the
side of the maximum on which the (first) minimum lies; and when the unkept
boundary is inconsistent (the well still descending at the array edge of
the kept side, i.e. f[-1] < f[0] when the right side is kept, f[-1] > f[0]
when the left side is kept), the call fails with the structural
"not well defined" error. -/
theorem C5_single_maximum_cut (x f : List ℚ)
    (hmin : (minmax_location x f).1.1.length = 1)
    (hmax : (minmax_location x f).1.2.length = 1) :
    (∀ xs fs, (potential_well_cut x f).2 = Except.ok (xs, fs) →
      (∀ v ∈ fs, v < (minmax_location x f).2.2.getD 0 0) ∧
      ((minmax_location x f).1.1.getD 0 0 > (minmax_location x f).1.2.getD 0 0 →
        ∀ u ∈ xs, u > (minmax_location x f).1.2.getD 0 0) ∧
      ((minmax_location x f).1.1.getD 0 0 < (minmax_location x f).1.2.getD 0 0 →
        ∀ u ∈ xs, u < (minmax_location x f).1.2.getD 0 0)) ∧
    (((minmax_location x f).1.1.getD 0 0 > (minmax_location x f).1.2.getD 0 0 ∧
        f.getLastD 0 < f.headD 0) ∨
      (¬ ((minmax_location x f).1.1.getD 0 0 > (minmax_location x f).1.2.getD 0 0) ∧
        f.getLastD 0 > f.headD 0) →
      (potential_well_cut x f).2 =
        Except.error "The potential well is not well defined.") := by
  simp only [minmax_location]
  have hm : (min_positions x f).length = 1 := hmin
  have hM : (max_positions x f).length = 1 := hmax
  have h1 : ¬ (min_positions x f).length = 0 := by simp [hm]
  have h2 : ¬ ((min_positions x f).length > (max_positions x f).length ∧
      (max_positions x f).length = 1) := by simp [hm, hM]
  have h3 : ¬ (max_positions x f).length = 0 := by simp [hM]
  simp only [potential_well_cut]
  rw [if_neg h1, if_neg h2, if_neg h3, if_pos hM]
  by_cases hside : (min_positions x f).getD 0 0 > (max_positions x f).getD 0 0
  · rw [if_pos hside]
    by_cases hb : f.getLastD 0 < f.headD 0
    · rw [if_pos hb]
      refine ⟨?_, ?_⟩
      · intro xs fs h
        exact absurd h (by simp)
      · intro _
        rfl
    · rw [if_neg hb]
      refine ⟨?_, ?_⟩
      · intro xs fs h
        simp only [Except.ok.injEq, Prod.mk.injEq] at h
        obtain ⟨hxs, hfs⟩ := h
        subst hxs
        subst hfs
        refine ⟨?_, ?_, ?_⟩
        · intro v hv
          obtain ⟨pr, hpr, rfl⟩ := List.mem_map.mp hv
          exact (of_decide_eq_true (List.mem_filter.mp hpr).2).1
        · intro _ u hu
          obtain ⟨pr, hpr, rfl⟩ := List.mem_map.mp hu
          exact (of_decide_eq_true (List.mem_filter.mp hpr).2).2
        · intro hlt
          exact absurd hside (lt_asymm hlt)
      · intro hcond
        rcases hcond with ⟨_, hb'⟩ | ⟨hns, _⟩
        · exact absurd hb' hb
        · exact absurd hside hns
  · rw [if_neg hside]
    by_cases hb : f.getLastD 0 > f.headD 0
    · rw [if_pos hb]
      refine ⟨?_, ?_⟩
      · intro xs fs h
        exact absurd h (by simp)
      · intro _
        rfl
    · rw [if_neg hb]
      refine ⟨?_, ?_⟩
      · intro xs fs h
        simp only [Except.ok.injEq, Prod.mk.injEq] at h
        obtain ⟨hxs, hfs⟩ := h
        subst hxs
        subst hfs
        refine ⟨?_, ?_, ?_⟩
        · intro v hv
          obtain ⟨pr, hpr, rfl⟩ := List.mem_map.mp hv
          exact (of_decide_eq_true (List.mem_filter.mp hpr).2).1
        · intro hgt _ _
          exact absurd hgt hside
        · intro _ u hu
          obtain ⟨pr, hpr, rfl⟩ := List.mem_map.mp hu
          exact (of_decide_eq_true (List.mem_filter.mp hpr).2).2
      · intro hcond
        rcases hcond with ⟨hs', _⟩ | ⟨_, hb'⟩
        · exact absurd hs' hside
        · exact absurd hb' hb

lemma mm_X5 : minmax_location X5 F5 = (([7 / 2], [3 / 2]), ([-1 / 2], [1])) := by
  norm_num [minmax_location, min_positions, max_positions, max_values, min_values,
    deriv_zero_indices, second_deriv, first_deriv, deriv_grid, npdiff, npinterp,
    X5, F5, List.range_succ, List.getD]

lemma pwc_X5 : potential_well_cut X5 F5 = (false, Except.ok ([2, 3, 4], [0, -1, 0])) := by
  norm_num [potential_well_cut, min_positions, max_positions, max_values, min_values,
    deriv_zero_indices, second_deriv, first_deriv, deriv_grid, npdiff, npinterp,
    X5, F5, List.range_succ, List.getD, List.getLastD, List.headD, List.filter]

/-- Witness for C5: on the concrete one-maximum well (X5, F5) the
hypotheses hold, the cut returns ([2,3,4], [0,-1,0]), and the cut
properties follow from the theorem. -/
theorem C5_witness :
    (minmax_location X5 F5).1.1.length = 1 ∧
    (minmax_location X5 F5).1.2.length = 1 ∧
    (potential_well_cut X5 F5).2 = Except.ok ([2, 3, 4], [0, -1, 0]) ∧
    ((∀ xs fs, (potential_well_cut X5 F5).2 = Except.ok (xs, fs) →
      (∀ v ∈ fs, v < (minmax_location X5 F5).2.2.getD 0 0) ∧
      ((minmax_location X5 F5).1.1.getD 0 0 > (minmax_location X5 F5).1.2.getD 0 0 →
        ∀ u ∈ xs, u > (minmax_location X5 F5).1.2.getD 0 0) ∧
      ((minmax_location X5 F5).1.1.getD 0 0 < (minmax_location X5 F5).1.2.getD 0 0 →
        ∀ u ∈ xs, u < (minmax_location X5 F5).1.2.getD 0 0)) ∧
    (((minmax_location X5 F5).1.1.getD 0 0 > (minmax_location X5 F5).1.2.getD 0 0 ∧
        F5.getLastD 0 < F5.headD 0) ∨
      (¬ ((minmax_location X5 F5).1.1.getD 0 0 > (minmax_location X5 F5).1.2.getD 0 0) ∧
        F5.getLastD 0 > F5.headD 0) →
      (potential_well_cut X5 F5).2 =
        Except.error "The potential well is not well defined.")) :=
  ⟨by simp [mm_X5], by simp [mm_X5], by simp [pwc_X5],
    C5_single_maximum_cut X5 F5 (by simp [mm_X5]) (by simp [mm_X5])⟩

lemma mm_X6 : minmax_location X6 F6 = (([3 / 2], [7 / 2]), ([-1 / 2], [3 / 2])) := by
  norm_num [minmax_location, min_positions, max_positions, max_values, min_values,
    deriv_zero_indices, second_deriv, first_deriv, deriv_grid, npdiff, npinterp,
    X6, F6, List.range_succ, List.getD]

lemma pwc_X6 : potential_well_cut X6 F6 =
    (false, Except.error "The potential well is not well defined.") := by
  norm_num [potential_well_cut, min_positions, max_positions, max_values, min_values,
    deriv_zero_indices, second_deriv, first_deriv, deriv_grid, npdiff, npinterp,
    X6, F6, List.range_succ, List.getD, List.getLastD, List.headD, List.filter]

/-- Counterexample for C6 as stated: on (X6, F6) minmax_location finds one
minimum and one maximum, so neither of the two claimed abort
configurations holds, yet potential_well_cut aborts with the structural
"not well defined" error of the one-maximum boundary-consistency check. -/
theorem C6_counterexample :
    ¬ ((minmax_location X6 F6).1.1.length = 0) ∧
    ¬ ((minmax_location X6 F6).1.1.length > (minmax_location X6 F6).1.2.length ∧
       (minmax_location X6 F6).1.2.length = 1) ∧
    (potential_well_cut X6 F6).2 =
      Except.error "The potential well is not well defined." :=
  ⟨by simp [mm_X6], by simp [mm_X6], by simp [pwc_X6]⟩

/-- Claim C6 (amended): on inputs where minmax_location completes,
potential_well_cut aborts exactly when: no minima were detected
("no minima" error); or the minima count exceeds the maxima count with
exactly one maximum; or no maxima were detected (the fallback branch
prints its diagnostic but then crashes with UnboundLocalError); or exactly
one maximum was detected and the boundary-consistency check of the kept
side fails ("not well defined" error).  The two configurations named by
the claim are therefore not the only aborting ones. -/
theorem C6_structural_error_characterization (x f : List ℚ) (hwf : minmax_wf x f) :
    (∃ msg, (potential_well_cut x f).2 = Except.error msg) ↔
      ((minmax_location x f).1.1.length = 0 ∨
       ((minmax_location x f).1.1.length > (minmax_location x f).1.2.length ∧
         (minmax_location x f).1.2.length = 1) ∨
       (minmax_location x f).1.2.length = 0 ∨
       ((minmax_location x f).1.2.length = 1 ∧
         (((minmax_location x f).1.1.getD 0 0 > (minmax_location x f).1.2.getD 0 0 ∧
            f.getLastD 0 < f.headD 0) ∨
          (¬ ((minmax_location x f).1.1.getD 0 0 > (minmax_location x f).1.2.getD 0 0) ∧
            f.getLastD 0 > f.headD 0)))) := by
  simp only [minmax_location]
  simp only [potential_well_cut]
  by_cases h1 : (min_positions x f).length = 0
  · rw [if_pos h1]
    exact iff_of_true ⟨_, rfl⟩ (Or.inl h1)
  · rw [if_neg h1]
    by_cases h2 : (min_positions x f).length > (max_positions x f).length ∧
      (max_positions x f).length = 1
    · rw [if_pos h2]
      exact iff_of_true ⟨_, rfl⟩ (Or.inr (Or.inl h2))
    · rw [if_neg h2]
      by_cases h3 : (max_positions x f).length = 0
      · rw [if_pos h3]
        exact iff_of_true ⟨_, rfl⟩ (Or.inr (Or.inr (Or.inl h3)))
      · rw [if_neg h3]
        by_cases h4 : (max_positions x f).length = 1
        · rw [if_pos h4]
          by_cases h5 : (min_positions x f).getD 0 0 > (max_positions x f).getD 0 0
          · rw [if_pos h5]
            by_cases h6 : f.getLastD 0 < f.headD 0
            · rw [if_pos h6]
              exact iff_of_true ⟨_, rfl⟩
                (Or.inr (Or.inr (Or.inr ⟨h4, Or.inl ⟨h5, h6⟩⟩)))
            · rw [if_neg h6]
              apply iff_of_false
              · rintro ⟨msg, hmsg⟩
                simp at hmsg
              · rintro (h | h | h | ⟨_, ⟨_, hb⟩ | ⟨hns, _⟩⟩)
                exacts [h1 h, h2 h, h3 h, h6 hb, hns h5]
          · rw [if_neg h5]
            by_cases h6 : f.getLastD 0 > f.headD 0
            · rw [if_pos h6]
              exact iff_of_true ⟨_, rfl⟩
                (Or.inr (Or.inr (Or.inr ⟨h4, Or.inr ⟨h5, h6⟩⟩)))
            · rw [if_neg h6]
              apply iff_of_false
              · rintro ⟨msg, hmsg⟩
                simp at hmsg
              · rintro (h | h | h | ⟨_, ⟨hgt, _⟩ | ⟨_, hb⟩⟩)
                exacts [h1 h, h2 h, h3 h, h5 hgt, h6 hb]
        · rw [if_neg h4]
          split_ifs
          all_goals
            apply iff_of_false
            · rintro ⟨msg, hmsg⟩
              simp at hmsg
            · rintro (h | h | h | ⟨hlen, _⟩)
              exacts [h1 h, h2 h, h3 h, h4 hlen]

lemma wf_X6 : minmax_wf X6 F6 := by
  refine ⟨by norm_num [X6], by norm_num [X6, F6], ?_⟩
  have h : deriv_zero_indices X6 F6 = [1, 3] := by
    norm_num [deriv_zero_indices, first_deriv, deriv_grid, npdiff, npinterp, X6, F6,
      List.range_succ, List.getD]
  rw [h]
  intro i hi
  fin_cases hi <;> norm_num [X6]

/-- Witness for C6: the amended characterization instantiated on the
concrete well-formed input (X6, F6). -/
theorem C6_witness :
    minmax_wf X6 F6 ∧
    ((∃ msg, (potential_well_cut X6 F6).2 = Except.error msg) ↔
      ((minmax_location X6 F6).1.1.length = 0 ∨
       ((minmax_location X6 F6).1.1.length > (minmax_location X6 F6).1.2.length ∧
         (minmax_location X6 F6).1.2.length = 1) ∨
       (minmax_location X6 F6).1.2.length = 0 ∨
       ((minmax_location X6 F6).1.2.length = 1 ∧
         (((minmax_location X6 F6).1.1.getD 0 0 > (minmax_location X6 F6).1.2.getD 0 0 ∧
            F6.getLastD 0 < F6.headD 0) ∨
          (¬ ((minmax_location X6 F6).1.1.getD 0 0 > (minmax_location X6 F6).1.2.getD 0 0) ∧
            F6.getLastD 0 > F6.headD 0))))) :=
  ⟨wf_X6, C6_structural_error_characterization X6 F6 wf_X6⟩

/-- Claim C7 (amended): within the per-particle loop, a particle is
excluded from spectral estimation (both its frequencies left at zero)
exactly when its theta excursion over the analysis window REACHES OR
exceeds the initial ensemble's extreme range - touching either boundary
already counts as lost, so strict exceedance is not required; surviving
particles get the two independent peak-magnitude estimates, one from the
theta series and one from the dE series. -/
theorem C7_loss_criterion (t : SyncFreqTracker) (ns s e i : ℕ)
    (hi : i < t.n_macroparticles) (hw : theta_series t s e i ≠ []) :
    (¬ particle_survives t s e i ↔
      max_theta_range t ≤ particle_max t s e i ∨
        particle_min t s e i ≤ min_theta_range t) ∧
    (¬ particle_survives t s e i →
      frequency_theta t ns s e i = 0 ∧ frequency_dE t ns s e i = 0) ∧
    (particle_survives t s e i →
      frequency_theta t ns s e i = peak_freq (theta_series t s e i) ns t.timeStep ∧
      frequency_dE t ns s e i = peak_freq (dE_series t s e i) ns t.timeStep) := by
  refine ⟨?_, ?_, ?_⟩
  · unfold particle_survives
    rw [not_and_or, not_lt, not_lt]
  · intro h
    unfold frequency_theta frequency_dE
    rw [if_neg h, if_neg h]
    exact ⟨rfl, rfl⟩
  · intro h
    unfold frequency_theta frequency_dE
    rw [if_pos h, if_pos h]
    exact ⟨rfl, rfl⟩

lemma ts_T7 : theta_series T7 0 2 1 = [1, 1] := by
  norm_num [theta_series, turn_window, T7, List.range_succ, List.filter]

lemma pmax_T7 : particle_max T7 0 2 1 = 1 := by
  rw [particle_max, ts_T7]
  norm_num [List.max?, List.foldl]

lemma pmin_T7 : particle_min T7 0 2 1 = 1 := by
  rw [particle_min, ts_T7]
  norm_num [List.min?, List.foldl]

lemma maxrange_T7 : max_theta_range T7 = 1 := by
  norm_num [max_theta_range, T7, List.range_succ, List.max?, List.foldl, max_def]

lemma minrange_T7 : min_theta_range T7 = 0 := by
  norm_num [min_theta_range, T7, List.range_succ, List.min?, List.foldl, min_def]

lemma notsurv_T7 : ¬ particle_survives T7 0 2 1 := by
  unfold particle_survives
  rw [pmax_T7, maxrange_T7]
  simp

/-- Counterexample for C7 as stated: the particle sitting at the initial
maximum theta (particle 1 of T7) never strictly exceeds the initial
extreme range over the window, yet it is excluded from frequency
estimation and both its frequencies are left at zero, because the source
keeps only particles strictly inside the range. -/
theorem C7_counterexample :
    ¬ particle_survives T7 0 2 1 ∧
    particle_max T7 0 2 1 ≤ max_theta_range T7 ∧
    min_theta_range T7 ≤ particle_min T7 0 2 1 ∧
    frequency_theta T7 4 0 2 1 = 0 ∧ frequency_dE T7 4 0 2 1 = 0 := by
  refine ⟨notsurv_T7, ?_, ?_, ?_, ?_⟩
  · rw [pmax_T7, maxrange_T7]
  · rw [minrange_T7, pmin_T7]
    norm_num
  · unfold frequency_theta
    rw [if_neg notsurv_T7]
  · unfold frequency_dE
    rw [if_neg notsurv_T7]

/-- Witness for C7: the amended statement instantiated on the concrete
tracker T7 at particle index 1 with a nonempty window. -/
theorem C7_witness :
    1 < T7.n_macroparticles ∧ theta_series T7 0 2 1 ≠ [] ∧
    ((¬ particle_survives T7 0 2 1 ↔
      max_theta_range T7 ≤ particle_max T7 0 2 1 ∨
        particle_min T7 0 2 1 ≤ min_theta_range T7) ∧
    (¬ particle_survives T7 0 2 1 →
      frequency_theta T7 4 0 2 1 = 0 ∧ frequency_dE T7 4 0 2 1 = 0) ∧
    (particle_survives T7 0 2 1 →
      frequency_theta T7 4 0 2 1 = peak_freq (theta_series T7 0 2 1) 4 T7.timeStep ∧
      frequency_dE T7 4 0 2 1 = peak_freq (dE_series T7 0 2 1) 4 T7.timeStep)) :=
  ⟨by norm_num [T7], by simp [ts_T7],
    C7_loss_criterion T7 4 0 2 1 (by norm_num [T7]) (by simp [ts_T7])⟩
